import Mathlib

/-!
Verification of the Fiscora repository (Black-Scholes option pricing fed by
historical volatility).

The embedding translates the Python sources into Lean over the real numbers:

* IEEE doubles are idealised as real numbers (`ℝ`).  Where the Python code
  divides by zero (no guard exists in the source), the embedding inherits
  Lean's total division `x / 0 = 0`; every such place is documented at the
  theorem using it.
* `scipy.stats.norm.cdf` is embedded as the standard normal cumulative
  distribution function `norm_cdf`, defined by its integral.
* Python's `str.lower()` is embedded as `str_lower` (character-wise ASCII
  case folding over the string's character list; Lean's built-in
  `String.toLower` performs the same fold but is opaque to kernel
  evaluation, so the fold is spelled out).
* The pandas expression `np.log(close / close.shift(1)).std() * np.sqrt(252)`
  is embedded over the list of closing prices; a pandas `NaN` result
  (standard deviation of fewer than two valid observations under `ddof=1`)
  is represented by `Option.none`, and a real result by `Option.some`.
-/

open MeasureTheory

/-- Unnormalised standard normal density `exp(-t²/2)`; the integrand of the
distribution function used by `scipy.stats.norm.cdf`. -/
noncomputable def gaussDens (t : ℝ) : ℝ := Real.exp (-(t ^ 2) / 2)

lemma gaussDens_eq : gaussDens = fun t : ℝ => Real.exp (-(1 / 2) * t ^ 2) := by
  funext t
  unfold gaussDens
  congr 1
  ring

lemma gauss_pos (t : ℝ) : 0 < gaussDens t := Real.exp_pos _

lemma gauss_cont : Continuous gaussDens := by
  unfold gaussDens
  fun_prop

lemma gauss_even (t : ℝ) : gaussDens (-t) = gaussDens t := by
  unfold gaussDens
  congr 1
  ring

lemma gauss_integrable : Integrable gaussDens := by
  rw [gaussDens_eq]
  exact integrable_exp_neg_mul_sq (by norm_num)

lemma gauss_total : ∫ t : ℝ, gaussDens t = Real.sqrt (2 * Real.pi) := by
  rw [gaussDens_eq, integral_gaussian]
  congr 1
  rw [div_div_eq_mul_div, div_one]
  ring

lemma sqrt_two_pi_pos : 0 < Real.sqrt (2 * Real.pi) :=
  Real.sqrt_pos.mpr (by positivity)

/-- Embedding of `scipy.stats.norm.cdf`: the standard normal cumulative
distribution function `Φ(x) = (∫_{-∞}^{x} exp(-t²/2) dt) / sqrt(2π)`. -/
noncomputable def norm_cdf (x : ℝ) : ℝ :=
  (∫ t in Set.Iic x, gaussDens t) / Real.sqrt (2 * Real.pi)

lemma integral_Iic_neg (x : ℝ) :
    ∫ t in Set.Iic (-x), gaussDens t = ∫ t in Set.Ioi x, gaussDens t := by
  have hfun : (fun t : ℝ => gaussDens (-t)) = gaussDens := funext gauss_even
  have h := integral_comp_neg_Iic (-x) gaussDens
  rw [neg_neg, hfun] at h
  exact h

/-- Symmetry of the standard normal distribution: `Φ(x) + Φ(-x) = 1`. -/
lemma norm_cdf_add_neg (x : ℝ) : norm_cdf x + norm_cdf (-x) = 1 := by
  have hsplit :
      (∫ t in Set.Iic x, gaussDens t) + ∫ t in Set.Ioi x, gaussDens t
        = ∫ t : ℝ, gaussDens t := by
    have h := integral_add_compl (measurableSet_Iic (a := x)) gauss_integrable
    rw [Set.compl_Iic] at h
    exact h
  unfold norm_cdf
  rw [integral_Iic_neg, div_add_div_same, hsplit, gauss_total,
    div_self (ne_of_gt sqrt_two_pi_pos)]

lemma norm_cdf_zero : norm_cdf 0 = 1 / 2 := by
  have h := norm_cdf_add_neg 0
  rw [neg_zero] at h
  linarith

lemma norm_cdf_pos (x : ℝ) : 0 < norm_cdf x := by
  apply div_pos _ sqrt_two_pi_pos
  have hsub :
      (∫ t in Set.Iic x, gaussDens t) - ∫ t in Set.Iic (x - 1), gaussDens t
        = ∫ t in (x - 1)..x, gaussDens t :=
    intervalIntegral.integral_Iic_sub_Iic gauss_integrable.integrableOn
      gauss_integrable.integrableOn
  have hpos : 0 < ∫ t in (x - 1)..x, gaussDens t :=
    intervalIntegral.intervalIntegral_pos_of_pos_on
      gauss_integrable.intervalIntegrable (fun t _ => gauss_pos t) (by linarith)
  have hnn : 0 ≤ ∫ t in Set.Iic (x - 1), gaussDens t :=
    setIntegral_nonneg measurableSet_Iic fun t _ => (gauss_pos t).le
  linarith

lemma norm_cdf_nonneg (x : ℝ) : 0 ≤ norm_cdf x := (norm_cdf_pos x).le

lemma norm_cdf_eq_aux (x : ℝ) :
    norm_cdf x =
      ((∫ t in Set.Iic (0 : ℝ), gaussDens t) + ∫ t in (0 : ℝ)..x, gaussDens t)
        / Real.sqrt (2 * Real.pi) := by
  unfold norm_cdf
  congr 1
  have h :=
    intervalIntegral.integral_Iic_sub_Iic (a := (0 : ℝ)) (b := x)
      gauss_integrable.integrableOn gauss_integrable.integrableOn
  linarith

/-- The standard normal distribution function is differentiable, with
derivative the (normalised) Gaussian density. -/
lemma norm_cdf_hasDerivAt (x : ℝ) :
    HasDerivAt norm_cdf (gaussDens x / Real.sqrt (2 * Real.pi)) x := by
  have h1 : HasDerivAt (fun u : ℝ => ∫ t in (0 : ℝ)..u, gaussDens t) (gaussDens x) x :=
    intervalIntegral.integral_hasDerivAt_right gauss_integrable.intervalIntegrable
      (gauss_cont.stronglyMeasurableAtFilter _ _) gauss_cont.continuousAt
  have h2 := (h1.const_add (∫ t in Set.Iic (0 : ℝ), gaussDens t)).div_const
    (Real.sqrt (2 * Real.pi))
  have hfe :
      (fun u : ℝ =>
        ((∫ t in Set.Iic (0 : ℝ), gaussDens t) + ∫ t in (0 : ℝ)..u, gaussDens t)
          / Real.sqrt (2 * Real.pi)) = norm_cdf := by
    funext u
    rw [norm_cdf_eq_aux]
  rw [hfe] at h2
  exact h2

/-- Embedding of Python's `str.lower()` as used in `option_type.lower()`:
character-wise ASCII case folding over the string's characters. -/
def str_lower (s : String) : String := String.mk (s.data.map Char.toLower)

/-- The intermediate quantity `d1` computed by `black_scholes`
(`src/src/classical.py`, line 21):
`d1 = (log(S / K) + (r + sigma ** 2 / 2) * T) / (sigma * sqrt(T))`. -/
noncomputable def d1 (S K T r sigma : ℝ) : ℝ :=
  (Real.log (S / K) + (r + sigma ^ 2 / 2) * T) / (sigma * Real.sqrt T)

/-- The intermediate quantity `d2` (`src/src/classical.py`, line 22):
`d2 = d1 - sigma * sqrt(T)`. -/
noncomputable def d2 (S K T r sigma : ℝ) : ℝ :=
  d1 S K T r sigma - sigma * Real.sqrt T

/-- Embedding of `black_scholes` from `src/src/classical.py` (lines 5-29),
transcribed statement by statement.  The Python function performs no input
validation and raises no exception: every input reaches the formula, and the
dispatch is `if option_type.lower() == 'call': ... else: ...` with the put
branch as the catch-all.  Real division is total in Lean (`x / 0 = 0`); the
reference would instead produce non-finite IEEE values at a zero divisor.
Theorems relying on that corner document it explicitly. -/
noncomputable def black_scholes (S K T r sigma : ℝ) (option_type : String := "call") : ℝ :=
  let d1 := (Real.log (S / K) + (r + sigma ^ 2 / 2) * T) / (sigma * Real.sqrt T)
  let d2 := d1 - sigma * Real.sqrt T
  if str_lower option_type = "call" then
    S * norm_cdf d1 - K * Real.exp (-r * T) * norm_cdf d2
  else
    K * Real.exp (-r * T) * norm_cdf (-d2) - S * norm_cdf (-d1)

namespace Tester

/-- Embedding of `black_scholes` from `src/tester.py` (lines 8-32),
transcribed independently from that file; its Python text coincides with the
copy in `src/src/classical.py`. -/
noncomputable def black_scholes (S K T r sigma : ℝ) (option_type : String := "call") : ℝ :=
  let d1 := (Real.log (S / K) + (r + sigma ^ 2 / 2) * T) / (sigma * Real.sqrt T)
  let d2 := d1 - sigma * Real.sqrt T
  if str_lower option_type = "call" then
    S * norm_cdf d1 - K * Real.exp (-r * T) * norm_cdf d2
  else
    K * Real.exp (-r * T) * norm_cdf (-d2) - S * norm_cdf (-d1)

end Tester

/-- Any option type that lowercases to `"call"` takes the call branch. -/
lemma bs_call_of (S K T r sigma : ℝ) (ot : String) (h : str_lower ot = "call") :
    black_scholes S K T r sigma ot
      = S * norm_cdf (d1 S K T r sigma)
        - K * Real.exp (-r * T) * norm_cdf (d2 S K T r sigma) := by
  simp only [black_scholes, d1, d2]
  rw [if_pos h]

lemma bs_call (S K T r sigma : ℝ) :
    black_scholes S K T r sigma "call"
      = S * norm_cdf (d1 S K T r sigma)
        - K * Real.exp (-r * T) * norm_cdf (d2 S K T r sigma) :=
  bs_call_of S K T r sigma "call" rfl

/-- Any option type that does not lowercase to `"call"` takes the put branch. -/
lemma bs_other (S K T r sigma : ℝ) (ot : String) (h : str_lower ot ≠ "call") :
    black_scholes S K T r sigma ot
      = K * Real.exp (-r * T) * norm_cdf (-(d2 S K T r sigma))
        - S * norm_cdf (-(d1 S K T r sigma)) := by
  simp only [black_scholes, d1, d2]
  rw [if_neg h]

/-- C1: for every spot `S>0`, strike `K>0`, maturity `T>0`, rate `r` and
volatility `sigma>0`, `black_scholes` returns `S·Φ(d1) - K·e^(-rT)·Φ(d2)` for
a call and `K·e^(-rT)·Φ(-d2) - S·Φ(-d1)` for a put, where
`d1 = (ln(S/K) + (r + sigma²/2)T)/(sigma·sqrt T)`, `d2 = d1 - sigma·sqrt T`
and `Φ` is the standard normal cumulative distribution function. -/
theorem C1_black_scholes_formula (S K T r sigma : ℝ)
    (hS : 0 < S) (hK : 0 < K) (hT : 0 < T) (hsig : 0 < sigma) :
    black_scholes S K T r sigma "call"
      = S * norm_cdf (d1 S K T r sigma)
        - K * Real.exp (-r * T) * norm_cdf (d2 S K T r sigma) ∧
    black_scholes S K T r sigma "put"
      = K * Real.exp (-r * T) * norm_cdf (-(d2 S K T r sigma))
        - S * norm_cdf (-(d1 S K T r sigma)) ∧
    d1 S K T r sigma
      = (Real.log (S / K) + (r + sigma ^ 2 / 2) * T) / (sigma * Real.sqrt T) ∧
    d2 S K T r sigma = d1 S K T r sigma - sigma * Real.sqrt T ∧
    (∀ x : ℝ, norm_cdf x
      = (∫ t in Set.Iic x, Real.exp (-(t ^ 2) / 2)) / Real.sqrt (2 * Real.pi)) :=
  ⟨bs_call S K T r sigma, bs_other S K T r sigma "put" (by decide),
   rfl, rfl, fun _ => rfl⟩

/-- Witness for C1 at `S=100, K=100, T=1, r=1/20, sigma=1/5`. -/
theorem C1_black_scholes_formula_witness :
    (0 : ℝ) < 100 ∧ (0 : ℝ) < 1 ∧ (0 : ℝ) < 1 / 5 ∧
    black_scholes 100 100 1 (1 / 20) (1 / 5) "call"
      = 100 * norm_cdf (d1 100 100 1 (1 / 20) (1 / 5))
        - 100 * Real.exp (-(1 / 20) * 1) * norm_cdf (d2 100 100 1 (1 / 20) (1 / 5)) :=
  ⟨by norm_num, by norm_num, by norm_num,
   (C1_black_scholes_formula 100 100 1 (1 / 20) (1 / 5)
     (by norm_num) (by norm_num) (by norm_num) (by norm_num)).1⟩

/-- C2: put-call parity, proved exactly (hence in particular within any
relative tolerance): `put - call = K·e^(-rT) - S`. -/
theorem C2_put_call_parity (S K T r sigma : ℝ)
    (hS : 0 < S) (hK : 0 < K) (hT : 0 < T) (hsig : 0 < sigma) :
    black_scholes S K T r sigma "put" - black_scholes S K T r sigma "call"
      = K * Real.exp (-r * T) - S := by
  rw [bs_other S K T r sigma "put" (by decide), bs_call]
  have h1 := norm_cdf_add_neg (d1 S K T r sigma)
  have h2 := norm_cdf_add_neg (d2 S K T r sigma)
  linear_combination (K * Real.exp (-r * T)) * h2 - S * h1

/-- Witness for C2 at `S=90, K=100, T=2, r=1/100, sigma=3/10`. -/
theorem C2_put_call_parity_witness :
    (0 : ℝ) < 90 ∧ (0 : ℝ) < 100 ∧ (0 : ℝ) < 2 ∧ (0 : ℝ) < 3 / 10 ∧
    black_scholes 90 100 2 (1 / 100) (3 / 10) "put"
        - black_scholes 90 100 2 (1 / 100) (3 / 10) "call"
      = 100 * Real.exp (-(1 / 100) * 2) - 90 :=
  ⟨by norm_num, by norm_num, by norm_num, by norm_num,
   C2_put_call_parity 90 100 2 (1 / 100) (3 / 10)
     (by norm_num) (by norm_num) (by norm_num) (by norm_num)⟩

/-- C3 counterexample: the claim that `black_scholes` fails with
`UnsupportedOptionKind` on a kind outside call/put is false.  The source has
no error path at all: the dispatch is an `if/else` whose `else` branch is the
put formula, so `"straddle"` is silently priced exactly as a put. -/
theorem C3_unsupported_kind_cex :
    black_scholes 100 100 1 (1 / 20) (1 / 5) "straddle"
      = black_scholes 100 100 1 (1 / 20) (1 / 5) "put" := by
  rw [bs_other 100 100 1 (1 / 20) (1 / 5) "straddle" (by decide),
    bs_other 100 100 1 (1 / 20) (1 / 5) "put" (by decide)]

/-- C3 amended: `black_scholes` raises no error on an unrecognised option
kind; every `option_type` whose lowercase form is not `"call"` (including
`"straddle"`) is silently priced as a put. -/
theorem C3_amended_put_default (S K T r sigma : ℝ) (ot : String)
    (h : str_lower ot ≠ "call") :
    black_scholes S K T r sigma ot = black_scholes S K T r sigma "put" := by
  rw [bs_other S K T r sigma ot h, bs_other S K T r sigma "put" (by decide)]

/-- Witness for the amended C3 at `option_type = "banana"`. -/
theorem C3_amended_put_default_witness :
    str_lower "banana" ≠ "call" ∧
    black_scholes 1 2 1 0 1 "banana" = black_scholes 1 2 1 0 1 "put" :=
  ⟨by decide, C3_amended_put_default 1 2 1 0 1 "banana" (by decide)⟩

/-- C8 counterexample: the claim that `black_scholes` fails with
`InvalidInput` when `sigma ≤ 0` is false: the source validates nothing and
returns the formula's value.  At `S=K=100, T=1, r=1/20, sigma=0` the Python
reference divides by zero, getting `d1 = d2 = +inf` (IEEE) and returning the
number `100·(1 - e^(-1/20))`; the embedding totalises the division as
`x / 0 = 0`, so `d1 = d2 = 0` and the returned number is
`50·(1 - e^(-1/20))`.  Under either semantics a numeric value is returned
and no `InvalidInput` error occurs. -/
theorem C8_invalid_input_cex :
    black_scholes 100 100 1 (1 / 20) 0 "call"
      = 50 * (1 - Real.exp (-(1 / 20))) := by
  have h1 : d1 100 100 1 (1 / 20) 0 = 0 := by
    unfold d1
    rw [zero_mul, div_zero]
  have h2 : d2 100 100 1 (1 / 20) 0 = 0 := by
    unfold d2
    rw [h1, zero_mul, sub_zero]
  rw [bs_call, h1, h2, norm_cdf_zero,
    show (-(1 / 20) * 1 : ℝ) = -(1 / 20) by ring]
  ring

/-- C8 amended: `black_scholes` performs no validation of `sigma` or `T`:
even when `sigma ≤ 0` or `T ≤ 0` it evaluates the unguarded formula and
returns its value (non-finite IEEE intermediates in the reference where the
divisor `sigma·sqrt T` is zero); no `InvalidInput` error exists in the
code. -/
theorem C8_amended_no_validation (S K T r sigma : ℝ)
    (h : sigma ≤ 0 ∨ T ≤ 0) :
    black_scholes S K T r sigma "call"
      = S * norm_cdf (d1 S K T r sigma)
        - K * Real.exp (-r * T) * norm_cdf (d2 S K T r sigma) ∧
    black_scholes S K T r sigma "put"
      = K * Real.exp (-r * T) * norm_cdf (-(d2 S K T r sigma))
        - S * norm_cdf (-(d1 S K T r sigma)) :=
  ⟨bs_call S K T r sigma, bs_other S K T r sigma "put" (by decide)⟩

/-- Witness for the amended C8 at `sigma = 0`. -/
theorem C8_amended_no_validation_witness :
    ((0 : ℝ) ≤ 0 ∨ (1 : ℝ) ≤ 0) ∧
    black_scholes 2 3 1 (1 / 10) 0 "call"
      = 2 * norm_cdf (d1 2 3 1 (1 / 10) 0)
        - 3 * Real.exp (-(1 / 10) * 1) * norm_cdf (d2 2 3 1 (1 / 10) 0) :=
  ⟨Or.inl le_rfl, (C8_amended_no_validation 2 3 1 (1 / 10) 0 (Or.inl le_rfl)).1⟩

/-- C9: the `black_scholes` of `src/src/classical.py` and the `black_scholes`
of `src/tester.py` are extensionally equal: for every input the two return
the same value. -/
theorem C9_tester_classical_equal :
    ∀ (S K T r sigma : ℝ) (option_type : String),
      black_scholes S K T r sigma option_type
        = Tester.black_scholes S K T r sigma option_type :=
  fun _ _ _ _ _ _ => rfl

/-- C10: `black_scholes` dispatches on the option kind case-insensitively and
defaults to put: any `option_type` whose lowercase form is `"call"` yields
the call price, and every other string (including `"put"` and unrecognised
values) yields the put price. -/
theorem C10_case_insensitive_dispatch (S K T r sigma : ℝ) (ot : String) :
    (str_lower ot = "call" →
      black_scholes S K T r sigma ot
        = S * norm_cdf (d1 S K T r sigma)
          - K * Real.exp (-r * T) * norm_cdf (d2 S K T r sigma)) ∧
    (str_lower ot ≠ "call" →
      black_scholes S K T r sigma ot
        = K * Real.exp (-r * T) * norm_cdf (-(d2 S K T r sigma))
          - S * norm_cdf (-(d1 S K T r sigma))) :=
  ⟨bs_call_of S K T r sigma ot, bs_other S K T r sigma ot⟩

/-- Witness for C10: `"CALL"` lowercases to `"call"` and is priced as a
call; `"straddle"` does not and is priced as a put. -/
theorem C10_case_insensitive_dispatch_witness :
    str_lower "CALL" = "call" ∧
    black_scholes 5 7 2 (1 / 50) (1 / 2) "CALL"
      = 5 * norm_cdf (d1 5 7 2 (1 / 50) (1 / 2))
        - 7 * Real.exp (-(1 / 50) * 2) * norm_cdf (d2 5 7 2 (1 / 50) (1 / 2)) ∧
    str_lower "Straddle" ≠ "call" ∧
    black_scholes 5 7 2 (1 / 50) (1 / 2) "Straddle"
      = 7 * Real.exp (-(1 / 50) * 2) * norm_cdf (-(d2 5 7 2 (1 / 50) (1 / 2)))
        - 5 * norm_cdf (-(d1 5 7 2 (1 / 50) (1 / 2))) :=
  ⟨by decide,
   (C10_case_insensitive_dispatch 5 7 2 (1 / 50) (1 / 2) "CALL").1 (by decide),
   by decide,
   (C10_case_insensitive_dispatch 5 7 2 (1 / 50) (1 / 2) "Straddle").2 (by decide)⟩

/-- Embedding of the pandas expression
`np.log(stock_data['Close'] / stock_data['Close'].shift(1))`
(`src/utils/data.py`, line 15) over the list of closing prices.  Pandas
divides each price by its predecessor; the first element of the shifted
series is NaN, and that NaN entry is skipped by the subsequent `.std()`
(default `skipna=True`), so the valid observations are exactly the log
ratios `log(P_t / P_(t-1))` over consecutive pairs, embedded here directly
as a list of length `N - 1`. -/
noncomputable def log_returns (close : List ℝ) : List ℝ :=
  (close.zip close.tail).map fun p => Real.log (p.2 / p.1)

/-- Embedding of `pandas.Series.std()` with its defaults (`ddof=1`,
`skipna=True`) on an all-valid series: the sample standard deviation
`sqrt(Σ (x - mean)² / (n - 1))`.  With fewer than two observations the
divisor `n - ddof` is not positive and pandas returns NaN, represented here
by `none`. -/
noncomputable def series_std (xs : List ℝ) : Option ℝ :=
  if xs.length ≤ 1 then none
  else
    some (Real.sqrt
      ((xs.map fun x => (x - xs.sum / (xs.length : ℝ)) ^ 2).sum
        / ((xs.length : ℝ) - 1)))

/-- Embedding of `calculate_historical_volatility` from `src/utils/data.py`
(lines 3-19): the Close column is taken as a list of reals, daily log
returns are computed, and their standard deviation is annualised by
`sqrt(252)`.  The `window` parameter (default 252) is accepted and never
read, exactly as in the source.  A NaN result of `.std()` propagates
through the multiplication, hence the `Option.map`. -/
noncomputable def calculate_historical_volatility
    (close : List ℝ) (window : ℕ := 252) : Option ℝ :=
  (series_std (log_returns close)).map fun s => s * Real.sqrt 252

lemma length_log_returns (close : List ℝ) :
    (log_returns close).length = close.length - 1 := by
  simp [log_returns]

/-- The list of log returns, element by element: entry `i` is
`log(close[i+1] / close[i])`. -/
lemma log_returns_ofFn (close : List ℝ) :
    log_returns close
      = List.ofFn fun i : Fin (close.length - 1) =>
          Real.log (close.get ⟨i.1 + 1, by have := i.isLt; omega⟩
            / close.get ⟨i.1, by have := i.isLt; omega⟩) := by
  apply List.ext_getElem
  · rw [length_log_returns, List.length_ofFn]
  · intro i h1 h2
    simp [log_returns, List.getElem_zip, List.getElem_tail]

/-- C4 counterexample: on a price series of length 1 the function does not
fail with `InsufficientData`; the return series is a single NaN, pandas
`.std()` skips it and returns NaN over zero observations, and the NaN is
silently propagated (represented by `none`).  No error of any kind is
raised by the source. -/
theorem C4_insufficient_data_cex :
    calculate_historical_volatility [100] 252 = none := by
  have hl : (log_returns [100]).length ≤ 1 := by
    rw [length_log_returns]
    decide
  unfold calculate_historical_volatility series_std
  rw [if_pos hl]
  rfl

/-- C4 amended: on every price series with at most two observations (in
particular on a series of length 1) `calculate_historical_volatility`
silently returns NaN (`none`) rather than failing with an
`InsufficientData` error: with fewer than two valid returns, pandas
`.std()` with `ddof=1` yields NaN and the function propagates it. -/
theorem C4_amended_silent_nan (close : List ℝ) (w : ℕ)
    (h : close.length ≤ 2) :
    calculate_historical_volatility close w = none := by
  have hl : (log_returns close).length ≤ 1 := by
    rw [length_log_returns]
    omega
  unfold calculate_historical_volatility series_std
  rw [if_pos hl]
  rfl

/-- Witness for the amended C4 on the two-observation series `[5, 7]`. -/
theorem C4_amended_silent_nan_witness :
    ([5, 7] : List ℝ).length ≤ 2 ∧
    calculate_historical_volatility [5, 7] 7 = none :=
  ⟨by decide, C4_amended_silent_nan [5, 7] 7 (by decide)⟩

/-- C5 counterexample: the claim promises a non-negative real for every
series of length `N ≥ 2` with positive prices, but at `N = 2` the return
series has a single observation, whose sample standard deviation
(`ddof=1`) is NaN in pandas; the function silently returns NaN (`none`)
instead of a number. -/
theorem C5_length_two_cex :
    calculate_historical_volatility [100, 101] 252 = none := by
  have hl : (log_returns [100, 101]).length ≤ 1 := by
    rw [length_log_returns]
    decide
  unfold calculate_historical_volatility series_std
  rw [if_pos hl]
  rfl

/-- C5 amended: for every price series of length `N ≥ 3` with strictly
positive closing prices, `calculate_historical_volatility` returns the
sample standard deviation of the log returns `ln(P_t / P_(t-1))` over every
consecutive pair, multiplied by `sqrt(252)`, and the value is non-negative
(at `N = 2` the sample standard deviation of the single return is undefined
and the function returns NaN, see the counterexample). -/
theorem C5_amended_volatility (close : List ℝ)
    (h3 : 3 ≤ close.length) (hpos : ∀ p ∈ close, 0 < p) :
    ∃ v : ℝ,
      calculate_historical_volatility close 252 = some v ∧
      0 ≤ v ∧
      v = Real.sqrt
            (((log_returns close).map fun x =>
                (x - (log_returns close).sum / ((close.length : ℝ) - 1)) ^ 2).sum
              / ((close.length : ℝ) - 2))
          * Real.sqrt 252 ∧
      log_returns close
        = List.ofFn fun i : Fin (close.length - 1) =>
            Real.log (close.get ⟨i.1 + 1, by have := i.isLt; omega⟩
              / close.get ⟨i.1, by have := i.isLt; omega⟩) := by
  have hn1 : (1 : ℕ) ≤ close.length := by omega
  have hlen := length_log_returns close
  have hcast : ((log_returns close).length : ℝ) = (close.length : ℝ) - 1 := by
    rw [hlen, Nat.cast_sub hn1, Nat.cast_one]
  have hnot : ¬(log_returns close).length ≤ 1 := by
    rw [hlen]
    omega
  refine ⟨Real.sqrt
      (((log_returns close).map fun x =>
          (x - (log_returns close).sum / ((close.length : ℝ) - 1)) ^ 2).sum
        / ((close.length : ℝ) - 2)) * Real.sqrt 252,
    ?_, by positivity, rfl, log_returns_ofFn close⟩
  unfold calculate_historical_volatility series_std
  rw [if_neg hnot]
  rw [Option.map_some', hcast,
    show (close.length : ℝ) - 1 - 1 = (close.length : ℝ) - 2 by ring]

/-- Witness for the amended C5 on the three-observation series
`[100, 100, 100]`. -/
theorem C5_amended_volatility_witness :
    3 ≤ ([100, 100, 100] : List ℝ).length ∧
    ∃ v : ℝ,
      calculate_historical_volatility [100, 100, 100] 252 = some v ∧
      0 ≤ v ∧
      v = Real.sqrt
            (((log_returns [100, 100, 100]).map fun x =>
                (x - (log_returns [100, 100, 100]).sum
                  / ((([100, 100, 100] : List ℝ).length : ℝ) - 1)) ^ 2).sum
              / ((([100, 100, 100] : List ℝ).length : ℝ) - 2))
          * Real.sqrt 252 ∧
      log_returns [100, 100, 100]
        = List.ofFn fun i : Fin (([100, 100, 100] : List ℝ).length - 1) =>
            Real.log (([100, 100, 100] : List ℝ).get
                ⟨i.1 + 1, by have := i.isLt; omega⟩
              / ([100, 100, 100] : List ℝ).get ⟨i.1, by have := i.isLt; omega⟩) :=
  ⟨by decide,
   C5_amended_volatility [100, 100, 100] (by decide) (by norm_num)⟩

/-- C6: the `window` parameter has no influence on the result (two-run
noninterference), and the annualisation by `sqrt(252)` is applied to the
standard deviation of the entire series unconditionally. -/
theorem C6_window_noninterference :
    (∀ (close : List ℝ) (w1 w2 : ℕ),
      calculate_historical_volatility close w1
        = calculate_historical_volatility close w2) ∧
    (∀ (close : List ℝ) (w : ℕ),
      calculate_historical_volatility close w
        = (series_std (log_returns close)).map fun s => s * Real.sqrt 252) :=
  ⟨fun _ _ _ => rfl, fun _ _ => rfl⟩

/-- The classical Black-Scholes density identity
`S · φ(d1) = K·e^(-rT) · φ(d2)` (with `φ` the unnormalised Gaussian
density), the reason the delta of a call is exactly `Φ(d1)`. -/
lemma gauss_identity (S K T r sigma : ℝ) (hS : 0 < S) (hK : 0 < K)
    (hT : 0 < T) (hsig : 0 < sigma) :
    S * gaussDens (d1 S K T r sigma)
      = K * Real.exp (-r * T) * gaussDens (d2 S K T r sigma) := by
  have hsq : sigma * Real.sqrt T ≠ 0 :=
    ne_of_gt (mul_pos hsig (Real.sqrt_pos.mpr hT))
  have hsqT : Real.sqrt T * Real.sqrt T = T := Real.mul_self_sqrt hT.le
  unfold d2 gaussDens
  set a := d1 S K T r sigma with ha
  have hd1 : a * (sigma * Real.sqrt T)
      = Real.log S - Real.log K + (r + sigma ^ 2 / 2) * T := by
    rw [ha]
    unfold d1
    rw [div_mul_cancel₀ _ hsq, Real.log_div (ne_of_gt hS) (ne_of_gt hK)]
  rw [← Real.exp_log hS, ← Real.exp_log hK, ← Real.exp_add, ← Real.exp_add,
    ← Real.exp_add]
  congr 1
  linear_combination (sigma ^ 2 / 2) * hsqT - hd1

/-- Derivative of `d1` in the spot variable. -/
lemma hasDerivAt_d1_spot (K T r sigma S : ℝ) (hK : 0 < K) (hT : 0 < T)
    (hsig : 0 < sigma) (hS : 0 < S) :
    HasDerivAt (fun s => d1 s K T r sigma)
      (1 / (S * (sigma * Real.sqrt T))) S := by
  have hKne : K ≠ 0 := ne_of_gt hK
  have hSne : S ≠ 0 := ne_of_gt hS
  have hsqrtne : Real.sqrt T ≠ 0 := ne_of_gt (Real.sqrt_pos.mpr hT)
  have hSK : S / K ≠ 0 := ne_of_gt (div_pos hS hK)
  have h0 : HasDerivAt (fun s : ℝ => s / K) (1 / K) S := (hasDerivAt_id S).div_const K
  have h1 : HasDerivAt (fun s : ℝ => Real.log (s / K)) (1 / K / (S / K)) S :=
    h0.log hSK
  have h2 := (h1.add_const ((r + sigma ^ 2 / 2) * T)).div_const (sigma * Real.sqrt T)
  have heq : 1 / K / (S / K) / (sigma * Real.sqrt T)
      = 1 / (S * (sigma * Real.sqrt T)) := by
    field_simp
  rw [heq] at h2
  unfold d1
  exact h2

/-- Derivative of the call branch in the spot variable: exactly `Φ(d1)`. -/
lemma hasDerivAt_call_spot (K T r sigma : ℝ) (hK : 0 < K) (hT : 0 < T)
    (hsig : 0 < sigma) (S : ℝ) (hS : 0 < S) :
    HasDerivAt (fun s => black_scholes s K T r sigma "call")
      (norm_cdf (d1 S K T r sigma)) S := by
  have hd1 := hasDerivAt_d1_spot K T r sigma S hK hT hsig hS
  have hd2 : HasDerivAt (fun s => d2 s K T r sigma)
      (1 / (S * (sigma * Real.sqrt T))) S := by
    unfold d2
    exact hd1.sub_const _
  have hc1 : HasDerivAt (fun s => norm_cdf (d1 s K T r sigma))
      (gaussDens (d1 S K T r sigma) / Real.sqrt (2 * Real.pi)
        * (1 / (S * (sigma * Real.sqrt T)))) S :=
    (norm_cdf_hasDerivAt (d1 S K T r sigma)).comp S hd1
  have hc2 : HasDerivAt (fun s => norm_cdf (d2 s K T r sigma))
      (gaussDens (d2 S K T r sigma) / Real.sqrt (2 * Real.pi)
        * (1 / (S * (sigma * Real.sqrt T)))) S :=
    (norm_cdf_hasDerivAt (d2 S K T r sigma)).comp S hd2
  have hA : HasDerivAt (fun s => s * norm_cdf (d1 s K T r sigma))
      (1 * norm_cdf (d1 S K T r sigma)
        + S * (gaussDens (d1 S K T r sigma) / Real.sqrt (2 * Real.pi)
          * (1 / (S * (sigma * Real.sqrt T))))) S :=
    (hasDerivAt_id S).mul hc1
  have hB : HasDerivAt
      (fun s => K * Real.exp (-r * T) * norm_cdf (d2 s K T r sigma))
      (K * Real.exp (-r * T) * (gaussDens (d2 S K T r sigma)
        / Real.sqrt (2 * Real.pi) * (1 / (S * (sigma * Real.sqrt T))))) S :=
    hc2.const_mul _
  have hfun : (fun s => black_scholes s K T r sigma "call")
      = fun s => s * norm_cdf (d1 s K T r sigma)
        - K * Real.exp (-r * T) * norm_cdf (d2 s K T r sigma) := by
    funext s
    exact bs_call s K T r sigma
  rw [hfun]
  have htot := hA.sub hB
  have hval : 1 * norm_cdf (d1 S K T r sigma)
      + S * (gaussDens (d1 S K T r sigma) / Real.sqrt (2 * Real.pi)
        * (1 / (S * (sigma * Real.sqrt T))))
      - K * Real.exp (-r * T) * (gaussDens (d2 S K T r sigma)
        / Real.sqrt (2 * Real.pi) * (1 / (S * (sigma * Real.sqrt T))))
      = norm_cdf (d1 S K T r sigma) := by
    have hkey := gauss_identity S K T r sigma hS hK hT hsig
    linear_combination
      (1 / (Real.sqrt (2 * Real.pi) * (S * (sigma * Real.sqrt T)))) * hkey
  rw [hval] at htot
  exact htot

/-- The call branch is strictly increasing in the spot on `(0, ∞)`. -/
lemma call_strictMonoOn_spot (K T r sigma : ℝ) (hK : 0 < K) (hT : 0 < T)
    (hsig : 0 < sigma) :
    StrictMonoOn (fun s => black_scholes s K T r sigma "call") (Set.Ioi 0) := by
  apply strictMonoOn_of_deriv_pos (convex_Ioi 0)
  · intro s hs
    exact (hasDerivAt_call_spot K T r sigma hK hT hsig s hs).continuousAt.continuousWithinAt
  · intro s hs
    rw [interior_Ioi] at hs
    rw [(hasDerivAt_call_spot K T r sigma hK hT hsig s hs).deriv]
    exact norm_cdf_pos _

/-- Derivative of `d1` in the volatility variable, by the quotient rule. -/
lemma hasDerivAt_d1_vol (S K T r sigma : ℝ) (hT : 0 < T) (hsig : 0 < sigma) :
    HasDerivAt (fun v => d1 S K T r v)
      ((sigma * T * (sigma * Real.sqrt T)
          - (Real.log (S / K) + (r + sigma ^ 2 / 2) * T) * Real.sqrt T)
        / (sigma * Real.sqrt T) ^ 2) sigma := by
  have hden : sigma * Real.sqrt T ≠ 0 :=
    ne_of_gt (mul_pos hsig (Real.sqrt_pos.mpr hT))
  have hc : HasDerivAt
      (fun v : ℝ => Real.log (S / K) + (r + v ^ 2 / 2) * T) (sigma * T) sigma := by
    have h1 := hasDerivAt_pow 2 sigma
    have h2 := ((h1.div_const 2).const_add r).mul_const T
    have h3 := h2.const_add (Real.log (S / K))
    have hv : ((2 : ℕ) : ℝ) * sigma ^ (2 - 1) / 2 * T = sigma * T := by
      norm_num
    rw [hv] at h3
    exact h3
  have hd : HasDerivAt (fun v : ℝ => v * Real.sqrt T) (Real.sqrt T) sigma := by
    have h := (hasDerivAt_id sigma).mul_const (Real.sqrt T)
    rw [one_mul] at h
    exact h
  have hdiv := hc.div hd hden
  unfold d1
  exact hdiv

/-- Derivative of the call branch in the volatility variable: the vega
`S·φ(d1)·sqrt(T)/sqrt(2π)`, for an arbitrary derivative `A` of `d1`.  The
`A`-dependence cancels through the identity `S·φ(d1) = K·e^(-rT)·φ(d2)`. -/
lemma hasDerivAt_call_vol_of (S K T r sigma A : ℝ) (hS : 0 < S) (hK : 0 < K)
    (hT : 0 < T) (hsig : 0 < sigma)
    (hd1 : HasDerivAt (fun v => d1 S K T r v) A sigma) :
    HasDerivAt (fun v => black_scholes S K T r v "call")
      (S * gaussDens (d1 S K T r sigma) * Real.sqrt T / Real.sqrt (2 * Real.pi))
      sigma := by
  have hd : HasDerivAt (fun v : ℝ => v * Real.sqrt T) (Real.sqrt T) sigma := by
    have h := (hasDerivAt_id sigma).mul_const (Real.sqrt T)
    rw [one_mul] at h
    exact h
  have hd2 : HasDerivAt (fun v => d2 S K T r v) (A - Real.sqrt T) sigma := by
    unfold d2
    exact hd1.sub hd
  have hc1 : HasDerivAt (fun v => norm_cdf (d1 S K T r v))
      (gaussDens (d1 S K T r sigma) / Real.sqrt (2 * Real.pi) * A) sigma :=
    (norm_cdf_hasDerivAt (d1 S K T r sigma)).comp sigma hd1
  have hc2 : HasDerivAt (fun v => norm_cdf (d2 S K T r v))
      (gaussDens (d2 S K T r sigma) / Real.sqrt (2 * Real.pi)
        * (A - Real.sqrt T)) sigma :=
    (norm_cdf_hasDerivAt (d2 S K T r sigma)).comp sigma hd2
  have hA2 : HasDerivAt (fun v => S * norm_cdf (d1 S K T r v))
      (S * (gaussDens (d1 S K T r sigma) / Real.sqrt (2 * Real.pi) * A)) sigma :=
    hc1.const_mul S
  have hB2 : HasDerivAt
      (fun v => K * Real.exp (-r * T) * norm_cdf (d2 S K T r v))
      (K * Real.exp (-r * T) * (gaussDens (d2 S K T r sigma)
        / Real.sqrt (2 * Real.pi) * (A - Real.sqrt T))) sigma :=
    hc2.const_mul _
  have hfun : (fun v => black_scholes S K T r v "call")
      = fun v => S * norm_cdf (d1 S K T r v)
        - K * Real.exp (-r * T) * norm_cdf (d2 S K T r v) := by
    funext v
    exact bs_call S K T r v
  rw [hfun]
  have htot := hA2.sub hB2
  have hval : S * (gaussDens (d1 S K T r sigma) / Real.sqrt (2 * Real.pi) * A)
      - K * Real.exp (-r * T) * (gaussDens (d2 S K T r sigma)
        / Real.sqrt (2 * Real.pi) * (A - Real.sqrt T))
      = S * gaussDens (d1 S K T r sigma) * Real.sqrt T
        / Real.sqrt (2 * Real.pi) := by
    have hkey := gauss_identity S K T r sigma hS hK hT hsig
    linear_combination ((A - Real.sqrt T) / Real.sqrt (2 * Real.pi)) * hkey
  rw [hval] at htot
  exact htot

/-- The call branch is strictly increasing in the volatility on `(0, ∞)`. -/
lemma call_strictMonoOn_vol (S K T r : ℝ) (hS : 0 < S) (hK : 0 < K)
    (hT : 0 < T) :
    StrictMonoOn (fun v => black_scholes S K T r v "call") (Set.Ioi 0) := by
  have hderiv : ∀ v : ℝ, 0 < v →
      HasDerivAt (fun v => black_scholes S K T r v "call")
        (S * gaussDens (d1 S K T r v) * Real.sqrt T / Real.sqrt (2 * Real.pi))
        v := fun v hv =>
    hasDerivAt_call_vol_of S K T r v _ hS hK hT hv
      (hasDerivAt_d1_vol S K T r v hT hv)
  apply strictMonoOn_of_deriv_pos (convex_Ioi 0)
  · intro v hv
    exact (hderiv v hv).continuousAt.continuousWithinAt
  · intro v hv
    rw [interior_Ioi] at hv
    rw [(hderiv v hv).deriv]
    exact div_pos
      (mul_pos (mul_pos hS (gauss_pos _)) (Real.sqrt_pos.mpr hT))
      sqrt_two_pi_pos

/-- C7: with `K>0`, `T>0`, `r` and `sigma>0` fixed, the call price returned
by `black_scholes` is monotonically non-decreasing in the spot `S` over
`0 < S1 ≤ S2`; and with `S>0`, `K>0`, `T>0`, `r` fixed it is monotonically
non-decreasing in the volatility over `0 < sigma1 ≤ sigma2`. -/
theorem C7_call_monotone (S K T r sigma : ℝ)
    (hS : 0 < S) (hK : 0 < K) (hT : 0 < T) (hsig : 0 < sigma) :
    (∀ S1 S2 : ℝ, 0 < S1 → S1 ≤ S2 →
      black_scholes S1 K T r sigma "call" ≤ black_scholes S2 K T r sigma "call") ∧
    (∀ v1 v2 : ℝ, 0 < v1 → v1 ≤ v2 →
      black_scholes S K T r v1 "call" ≤ black_scholes S K T r v2 "call") := by
  constructor
  · intro S1 S2 h1 h12
    exact (call_strictMonoOn_spot K T r sigma hK hT hsig).monotoneOn
      (Set.mem_Ioi.mpr h1) (Set.mem_Ioi.mpr (lt_of_lt_of_le h1 h12)) h12
  · intro v1 v2 h1 h12
    exact (call_strictMonoOn_vol S K T r hS hK hT).monotoneOn
      (Set.mem_Ioi.mpr h1) (Set.mem_Ioi.mpr (lt_of_lt_of_le h1 h12)) h12

/-- Witness for C7 at `K=100, T=1, r=1/20`: the call price at spot 100 is at
most the price at spot 120 (volatility 1/5 fixed), and the price at
volatility 1/5 is at most the price at volatility 3/10 (spot 100 fixed). -/
theorem C7_call_monotone_witness :
    (0 : ℝ) < 100 ∧ (0 : ℝ) < 1 ∧ (0 : ℝ) < 1 / 5 ∧
    black_scholes 100 100 1 (1 / 20) (1 / 5) "call"
      ≤ black_scholes 120 100 1 (1 / 20) (1 / 5) "call" ∧
    black_scholes 100 100 1 (1 / 20) (1 / 5) "call"
      ≤ black_scholes 100 100 1 (1 / 20) (3 / 10) "call" :=
  ⟨by norm_num, by norm_num, by norm_num,
   (C7_call_monotone 100 100 1 (1 / 20) (1 / 5)
       (by norm_num) (by norm_num) (by norm_num) (by norm_num)).1
     100 120 (by norm_num) (by norm_num),
   (C7_call_monotone 100 100 1 (1 / 20) (1 / 5)
       (by norm_num) (by norm_num) (by norm_num) (by norm_num)).2
     (1 / 5) (3 / 10) (by norm_num) (by norm_num)⟩
